import Mathlib

unseal Rat.add Rat.mul Rat.sub Rat.inv

/-!
Verification of the `FormulaEvaluator` recursive-descent spreadsheet-formula
evaluator (`src/Engine/FormulaEvaluator.ts`) against its natural-language
specification.

The evaluator is shallowly embedded: JavaScript numbers are modelled by the
inductive type `JSNum` (an exact rational together with the two infinities and
NaN, with IEEE-style propagation rules for the symbolic values; rounding of
finite doubles is outside the model), the token cursor and the latched
error/result fields become an explicit `EvalState`, and the mutually recursive
grammar productions `expression` / `term` / `factor` become fuel-indexed
functions returning `Option` (`none` = fuel exhausted).  A fuel-adequacy
theorem shows the fuel used by `evaluate` never runs out, which is the
termination content of the original recursion.

The two external collaborators that are not part of the provided sources are
abstracted: the cell-reference validity predicate `Cell.isValidCellLabel` and
the sheet memory become fields of a `Config` record, universally quantified in
every theorem; the error-message catalog of `GlobalDefinitions.ts` is modelled
from the spec as four fixed distinct strings.
-/

namespace FE

/-- A JavaScript number, as the evaluator observes it: an exact rational
(`fin`), positive or negative infinity, or NaN.  Finite arithmetic is exact
rational arithmetic; the symbolic values follow the IEEE rules JavaScript
uses (`Infinity - Infinity = NaN`, `5 - Infinity = -Infinity`, ...). -/
inductive JSNum where
  | fin (q : ℚ)
  | posInf
  | negInf
  | nan
deriving DecidableEq, Repr

namespace JSNum

/-- JavaScript `+` on numbers. -/
def add : JSNum → JSNum → JSNum
  | nan, _ => nan
  | _, nan => nan
  | posInf, negInf => nan
  | negInf, posInf => nan
  | posInf, _ => posInf
  | _, posInf => posInf
  | negInf, _ => negInf
  | _, negInf => negInf
  | fin a, fin b => fin (a + b)

/-- JavaScript `-` on numbers. -/
def sub : JSNum → JSNum → JSNum
  | nan, _ => nan
  | _, nan => nan
  | posInf, posInf => nan
  | negInf, negInf => nan
  | posInf, _ => posInf
  | negInf, _ => negInf
  | _, posInf => negInf
  | _, negInf => posInf
  | fin a, fin b => fin (a - b)

/-- JavaScript `*` on numbers. -/
def mul : JSNum → JSNum → JSNum
  | nan, _ => nan
  | _, nan => nan
  | posInf, posInf => posInf
  | posInf, negInf => negInf
  | negInf, posInf => negInf
  | negInf, negInf => posInf
  | posInf, fin b => if b = 0 then nan else if 0 < b then posInf else negInf
  | fin a, posInf => if a = 0 then nan else if 0 < a then posInf else negInf
  | negInf, fin b => if b = 0 then nan else if 0 < b then negInf else posInf
  | fin a, negInf => if a = 0 then nan else if 0 < a then negInf else posInf
  | fin a, fin b => fin (a * b)

/-- JavaScript `/` on numbers (negative zero is identified with zero, which is
harmless here because the evaluator guards every division with a `=== 0` test
that is also true of `-0`). -/
def div : JSNum → JSNum → JSNum
  | nan, _ => nan
  | _, nan => nan
  | posInf, posInf => nan
  | posInf, negInf => nan
  | negInf, posInf => nan
  | negInf, negInf => nan
  | fin _, posInf => fin 0
  | fin _, negInf => fin 0
  | posInf, fin b => if 0 ≤ b then posInf else negInf
  | negInf, fin b => if 0 ≤ b then negInf else posInf
  | fin a, fin b =>
    if b = 0 then (if a = 0 then nan else if 0 < a then posInf else negInf)
    else fin (a / b)

/-- The rational carried by a finite `JSNum` (`0` for the symbolic values). -/
def toRat : JSNum → ℚ
  | fin q => q
  | _ => 0

/-- Whether a `JSNum` is finite. -/
def isFin : JSNum → Bool
  | fin _ => true
  | _ => false

end JSNum

/-- ASCII whitespace, as trimmed by JavaScript string-to-number conversion. -/
def isSpaceChar (c : Char) : Bool :=
  c = ' ' || c = '\t' || c = '\n' || c = '\r' || c = Char.ofNat 11 || c = Char.ofNat 12

/-- Strip leading and trailing whitespace. -/
def trimChars (l : List Char) : List Char :=
  ((l.dropWhile isSpaceChar).reverse.dropWhile isSpaceChar).reverse

/-- Numeric value of a digit string read left to right. -/
def digitsToNat (l : List Char) : Nat :=
  l.foldl (fun a c => 10 * a + (c.toNat - 48)) 0

/-- Whether every character is a decimal digit. -/
def allDigits (l : List Char) : Bool :=
  l.all (fun c => c.isDigit)

/-- Split a character list at the first `.`, keeping what follows (with any
further dots left inside, where the digit check will reject them). -/
def splitDot : List Char → (List Char × Option (List Char))
  | [] => ([], none)
  | '.' :: r => ([], some r)
  | c :: r =>
    let p := splitDot r
    (c :: p.1, p.2)

/-- Parse an unsigned decimal literal (`digits`, `digits.digits`, `digits.`,
or `.digits`) as an exact rational. -/
def parseDecimal (l : List Char) : Option ℚ :=
  let p := splitDot l
  match p.2 with
  | none =>
    if l ≠ [] ∧ allDigits l = true then some (digitsToNat l : ℚ) else none
  | some fr =>
    if (p.1 ≠ [] ∨ fr ≠ []) ∧ allDigits p.1 = true ∧ allDigits fr = true then
      some ((digitsToNat p.1 : ℚ) + (digitsToNat fr : ℚ) / (10 : ℚ) ^ fr.length)
    else none

/-- JavaScript `Number(string)` on the token alphabet the evaluator works
over: whitespace is trimmed, the empty (or all-whitespace) string converts to
`0`, signed decimal literals and the `Infinity` literals convert to their
values, and everything else is NaN. -/
def jsNumberStr (s : String) : JSNum :=
  let l := trimChars s.toList
  if l = [] then JSNum.fin 0
  else
    let neg : Bool := match l with | '-' :: _ => true | _ => false
    let l' : List Char := match l with | '+' :: r => r | '-' :: r => r | _ => l
    if l' = "Infinity".toList then (if neg then JSNum.negInf else JSNum.posInf)
    else
      match parseDecimal l' with
      | some q => JSNum.fin (if neg then -q else q)
      | none => JSNum.nan

/-- `Number(token)` where the token may be JavaScript `undefined` (reading the
cursor past the end of the formula): `Number(undefined)` is NaN. -/
def jsNumber : Option String → JSNum
  | none => JSNum.nan
  | some s => jsNumberStr s

/-- `isNumber` from the source: `!isNaN(Number(token))`. -/
def isNumber (t : Option String) : Bool :=
  if jsNumber t = JSNum.nan then false else true

/-- Modelled from the spec: the error-message catalog of `GlobalDefinitions.ts`
is not among the provided sources.  The spec fixes four human-readable strings
keyed by kind (empty formula, invalid formula, invalid cell, divide by zero),
distinct from each other and from the empty string; the exact text may vary,
so every theorem refers to them symbolically. -/
def ErrorMessages.emptyFormula : String := "empty formula"

/-- Modelled from the spec: see `ErrorMessages.emptyFormula`. -/
def ErrorMessages.invalidFormula : String := "invalid formula"

/-- Modelled from the spec: see `ErrorMessages.emptyFormula`. -/
def ErrorMessages.invalidCell : String := "invalid cell"

/-- Modelled from the spec: see `ErrorMessages.emptyFormula`. -/
def ErrorMessages.divideByZero : String := "divide by zero"

/-- What the evaluator reads off a cell returned by the sheet memory: the
cell's stored formula (`getFormula`), latched error string (`getError`), and
last computed value (`getValue`). -/
structure CellData where
  formula : List String
  error : String
  value : JSNum
deriving DecidableEq, Repr

/-- The two external collaborators the evaluator consumes, as opaque oracles
(the spec treats both as owned by other components): the cell-reference
validity predicate `Cell.isValidCellLabel` and the sheet-memory lookup
`getCellByLabel`.  Both take an `Option String` because the evaluator can hand
them the out-of-range cursor read (JavaScript `undefined`). -/
structure Config where
  isCellReference : Option String → Bool
  getCellByLabel : Option String → CellData

/-- The evaluator's mutable fields: `_currentTokenIndex`, `_errorOccurred`,
`_errorMessage`, `_result` and `_lastResult`.  (`_currentFormula` is the
formula argument, threaded separately.) -/
structure EvalState where
  idx : Nat
  errorOccurred : Bool
  errorMessage : String
  result : JSNum
  lastResult : JSNum
deriving DecidableEq, Repr

/-- `this.currentToken`: the token under the cursor, `none` when the cursor
is past the end (JavaScript `undefined`). -/
def tokenAt (f : List String) (i : Nat) : Option String :=
  f.get? i

/-- `matchToken`: on a match the cursor advances; on a mismatch the cursor
stays, `_lastResult` is set to NaN and `_errorMessage` to `invalidFormula`
(note: `_errorOccurred` is NOT set). -/
def matchToken (f : List String) (expected : String) (s : EvalState) : Bool × EvalState :=
  if tokenAt f s.idx = some expected then
    (true, { s with idx := s.idx + 1 })
  else
    (false, { s with lastResult := JSNum.nan, errorMessage := ErrorMessages.invalidFormula })

/-- `getCellValue`: translated from the source.  Returns `(0, error)` when the
cell carries a non-empty error other than the empty-formula sentinel,
`(0, invalidCell)` when the cell's stored formula is empty, and
`(value, "")` otherwise. -/
def getCellValue (cfg : Config) (t : Option String) : JSNum × String :=
  let cell := cfg.getCellByLabel t
  if cell.error ≠ "" ∧ cell.error ≠ ErrorMessages.emptyFormula then
    (JSNum.fin 0, cell.error)
  else if cell.formula.length = 0 then
    (JSNum.fin 0, ErrorMessages.invalidCell)
  else
    (cell.value, "")

mutual

/-- `factor`: number, cell reference, parenthesised expression, or the
error fallback (latch `invalidFormula`, yield `0`, do not advance).  The first
argument of the `Nat` is fuel; `none` means the fuel ran out (the adequacy
theorem below shows the fuel `evaluate` passes never does). -/
def factor (cfg : Config) (f : List String) : Nat → EvalState → Option (JSNum × EvalState)
  | 0, _ => none
  | fuel + 1, s =>
    if isNumber (tokenAt f s.idx) then
      some (jsNumber (tokenAt f s.idx), { s with idx := s.idx + 1 })
    else if cfg.isCellReference (tokenAt f s.idx) then
      (if (getCellValue cfg (tokenAt f s.idx)).2 ≠ "" then
        some ((getCellValue cfg (tokenAt f s.idx)).1,
          { s with idx := s.idx + 1, errorOccurred := true,
                   errorMessage := (getCellValue cfg (tokenAt f s.idx)).2,
                   lastResult := JSNum.nan })
      else
        some ((getCellValue cfg (tokenAt f s.idx)).1, { s with idx := s.idx + 1 }))
    else if tokenAt f s.idx = some "(" then
      match expression cfg f fuel { s with idx := s.idx + 1 } with
      | none => none
      | some (v, s1) => some (v, (matchToken f ")" s1).2)
    else
      some (JSNum.fin 0,
        { s with errorOccurred := true, errorMessage := ErrorMessages.invalidFormula,
                 lastResult := JSNum.nan })

/-- The `while` loop of `term`: as long as the current token is `*` or `/`,
consume the operator and a `factor` and fold it into the accumulated value;
a zero divisor returns `Infinity` at once with the divide-by-zero error
latched. -/
def termLoop (cfg : Config) (f : List String) : Nat → JSNum → EvalState → Option (JSNum × EvalState)
  | 0, _, _ => none
  | fuel + 1, v, s =>
    if tokenAt f s.idx = some "*" then
      match factor cfg f fuel { s with idx := s.idx + 1 } with
      | none => none
      | some (w, s1) => termLoop cfg f fuel (JSNum.mul v w) s1
    else if tokenAt f s.idx = some "/" then
      match factor cfg f fuel { s with idx := s.idx + 1 } with
      | none => none
      | some (d, s1) =>
        if d = JSNum.fin 0 then
          some (JSNum.posInf,
            { s1 with errorOccurred := true, errorMessage := ErrorMessages.divideByZero,
                      lastResult := JSNum.posInf })
        else termLoop cfg f fuel (JSNum.div v d) s1
    else
      some (v, s)

/-- `term`: a `factor` followed by the `*`/`/` loop. -/
def term (cfg : Config) (f : List String) : Nat → EvalState → Option (JSNum × EvalState)
  | 0, _ => none
  | fuel + 1, s =>
    match factor cfg f fuel s with
    | none => none
    | some (v, s1) => termLoop cfg f fuel v s1

/-- The `while` loop of `expression`: as long as the current token is `+` or
`-`, consume the operator and a `term` and fold it into the accumulated
value. -/
def exprLoop (cfg : Config) (f : List String) : Nat → JSNum → EvalState → Option (JSNum × EvalState)
  | 0, _, _ => none
  | fuel + 1, v, s =>
    if tokenAt f s.idx = some "+" then
      match term cfg f fuel { s with idx := s.idx + 1 } with
      | none => none
      | some (w, s1) => exprLoop cfg f fuel (JSNum.add v w) s1
    else if tokenAt f s.idx = some "-" then
      match term cfg f fuel { s with idx := s.idx + 1 } with
      | none => none
      | some (w, s1) => exprLoop cfg f fuel (JSNum.sub v w) s1
    else
      some (v, s)

/-- `expression`: a `term` followed by the `+`/`-` loop. -/
def expression (cfg : Config) (f : List String) : Nat → EvalState → Option (JSNum × EvalState)
  | 0, _ => none
  | fuel + 1, s =>
    match term cfg f fuel s with
    | none => none
    | some (v, s1) => exprLoop cfg f fuel v s1

end

/-- The fuel `evaluate` hands the parser; the adequacy theorem shows it is
never exhausted. -/
def evalFuel (f : List String) : Nat :=
  6 * 8 ^ (f.length + 1)

/-- The per-call reset at the top of `evaluate`: cursor to `0`, error flag and
message cleared; `_result` and `_lastResult` keep their values from the
previous call. -/
def initState (prev : EvalState) : EvalState :=
  { idx := 0, errorOccurred := false, errorMessage := "",
    result := prev.result, lastResult := prev.lastResult }

/-- `evaluate`: translated from the source.  Resets the per-call state; an
empty formula latches `emptyFormula` and returns `0`; otherwise the
`expression` value is stored in `_result` and `_lastResult`, and if tokens
remain unconsumed while `_errorOccurred` is still false, `invalidFormula` is
latched and `0` returned (the stored `_result` keeps the parsed value). -/
def evaluate (cfg : Config) (f : List String) (prev : EvalState) : JSNum × EvalState :=
  if f.length = 0 then
    (JSNum.fin 0, { initState prev with errorMessage := ErrorMessages.emptyFormula })
  else
    match expression cfg f (evalFuel f) (initState prev) with
    | none => (JSNum.fin 0, initState prev)
    | some (v, s1) =>
      if s1.idx ≠ f.length ∧ s1.errorOccurred = false then
        (JSNum.fin 0,
          { s1 with result := v, lastResult := v,
                    errorMessage := ErrorMessages.invalidFormula })
      else
        (v, { s1 with result := v, lastResult := v })

/-- A cell with nothing in it. -/
def emptyCell : CellData :=
  { formula := [], error := "", value := JSNum.fin 0 }

/-- A backing configuration with no valid cell references and an empty sheet:
what a formula over literals alone observes. -/
def cfg0 : Config :=
  { isCellReference := fun _ => false, getCellByLabel := fun _ => emptyCell }

/-- The state of a freshly constructed evaluator. -/
def st0 : EvalState :=
  { idx := 0, errorOccurred := false, errorMessage := "",
    result := JSNum.fin 0, lastResult := JSNum.fin 0 }

mutual

/-- Abstract syntax of the literals-and-parentheses fragment of the grammar:
a factor is a numeric-literal token or a parenthesised expression. -/
inductive AFactor where
  | num : String → AFactor
  | paren : AExp → AFactor

/-- The `( ('*' | '/') factor )*` tail of a term, in source order. -/
inductive TermRest where
  | nil : TermRest
  | mul : AFactor → TermRest → TermRest
  | div : AFactor → TermRest → TermRest

/-- `term := factor ( ('*' | '/') factor )*`. -/
inductive ATerm where
  | mk : AFactor → TermRest → ATerm

/-- The `( ('+' | '-') term )*` tail of an expression, in source order. -/
inductive ExpRest where
  | nil : ExpRest
  | add : ATerm → ExpRest → ExpRest
  | sub : ATerm → ExpRest → ExpRest

/-- `expression := term ( ('+' | '-') term )*`: the well-formed token
sequences of the literal fragment are exactly the flattenings of these. -/
inductive AExp where
  | mk : ATerm → ExpRest → AExp

end

mutual

/-- The token sequence of a factor. -/
def flattenF : AFactor → List String
  | AFactor.num t => [t]
  | AFactor.paren e => "(" :: flattenE e ++ [")"]

/-- The token sequence of a term tail. -/
def flattenTR : TermRest → List String
  | TermRest.nil => []
  | TermRest.mul fa r => "*" :: flattenF fa ++ flattenTR r
  | TermRest.div fa r => "/" :: flattenF fa ++ flattenTR r

/-- The token sequence of a term. -/
def flattenT : ATerm → List String
  | ATerm.mk fa r => flattenF fa ++ flattenTR r

/-- The token sequence of an expression tail. -/
def flattenER : ExpRest → List String
  | ExpRest.nil => []
  | ExpRest.add t r => "+" :: flattenT t ++ flattenER r
  | ExpRest.sub t r => "-" :: flattenT t ++ flattenER r

/-- The token sequence of an expression. -/
def flattenE : AExp → List String
  | AExp.mk t r => flattenT t ++ flattenER r

end

mutual

/-- The mathematically exact value of a factor: the rational value of the
literal, or the value of the inner expression. -/
def qdenoF : AFactor → ℚ
  | AFactor.num t => (jsNumberStr t).toRat
  | AFactor.paren e => qdenoE e

/-- Left-associative fold of a term tail onto an accumulated value, with `*`
and `/` at this level. -/
def qdenoTR : ℚ → TermRest → ℚ
  | v, TermRest.nil => v
  | v, TermRest.mul fa r => qdenoTR (v * qdenoF fa) r
  | v, TermRest.div fa r => qdenoTR (v / qdenoF fa) r

/-- The mathematically exact value of a term. -/
def qdenoT : ATerm → ℚ
  | ATerm.mk fa r => qdenoTR (qdenoF fa) r

/-- Left-associative fold of an expression tail onto an accumulated value,
with `+` and `-` at this level. -/
def qdenoER : ℚ → ExpRest → ℚ
  | v, ExpRest.nil => v
  | v, ExpRest.add t r => qdenoER (v + qdenoT t) r
  | v, ExpRest.sub t r => qdenoER (v - qdenoT t) r

/-- The mathematically exact value of an expression: the left-associative
evaluation respecting the `*`,`/` over `+`,`-` precedence encoded in the
grammar levels. -/
def qdenoE : AExp → ℚ
  | AExp.mk t r => qdenoER (qdenoT t) r

end

mutual

/-- A well-formed factor of the claim's fragment: every literal token is one
`Number()` accepts with a finite value. -/
def goodF : AFactor → Bool
  | AFactor.num t => (jsNumberStr t).isFin
  | AFactor.paren e => goodE e

/-- A well-formed term tail: well-formed factors, and no divisor whose exact
value is zero. -/
def goodTR : TermRest → Bool
  | TermRest.nil => true
  | TermRest.mul fa r => goodF fa && goodTR r
  | TermRest.div fa r => goodF fa && decide (qdenoF fa ≠ 0) && goodTR r

/-- A well-formed term. -/
def goodT : ATerm → Bool
  | ATerm.mk fa r => goodF fa && goodTR r

/-- A well-formed expression tail. -/
def goodER : ExpRest → Bool
  | ExpRest.nil => true
  | ExpRest.add t r => goodT t && goodER r
  | ExpRest.sub t r => goodT t && goodER r

/-- A well-formed expression. -/
def goodE : AExp → Bool
  | AExp.mk t r => goodT t && goodER r

end

/-- The tokens after a term must not continue it: `term` returns only when
the current token is neither `*` nor `/`. -/
def stopT (rest : List String) : Prop :=
  rest.head? ≠ some "*" ∧ rest.head? ≠ some "/"

/-- The tokens after an expression must not continue it at either level. -/
def stopE (rest : List String) : Prop :=
  stopT rest ∧ rest.head? ≠ some "+" ∧ rest.head? ≠ some "-"

/-- The AST whose token sequence is `["3","+","4","*","2"]`. -/
def astA : AExp :=
  AExp.mk (ATerm.mk (AFactor.num "3") TermRest.nil)
    (ExpRest.add
      (ATerm.mk (AFactor.num "4") (TermRest.mul (AFactor.num "2") TermRest.nil))
      ExpRest.nil)

/-- The AST whose token sequence is `["10","-","2","-","3"]`. -/
def astB : AExp :=
  AExp.mk (ATerm.mk (AFactor.num "10") TermRest.nil)
    (ExpRest.sub (ATerm.mk (AFactor.num "2") TermRest.nil)
      (ExpRest.sub (ATerm.mk (AFactor.num "3") TermRest.nil) ExpRest.nil))

/-- The AST whose token sequence is `["3","+","4"]`. -/
def astC : AExp :=
  AExp.mk (ATerm.mk (AFactor.num "3") TermRest.nil)
    (ExpRest.add (ATerm.mk (AFactor.num "4") TermRest.nil) ExpRest.nil)

/-- A cell carrying a latched error, for exercising the reference rules. -/
def cellErr : CellData :=
  { formula := ["1"], error := "oops", value := JSNum.fin 5 }

/-- A configuration whose sheet has one cell, `A1`, carrying the error
`"oops"`. -/
def cfgErr : Config :=
  { isCellReference := fun t => decide (t = some "A1"),
    getCellByLabel := fun t => if t = some "A1" then cellErr else emptyCell }

/-- Reading one position of a list is reading the head after dropping. -/
theorem get?_eq_head?_drop : ∀ (l : List α) (i : Nat), l.get? i = (l.drop i).head?
  | [], i => by cases i <;> rfl
  | _ :: _, 0 => rfl
  | _ :: l, i + 1 => get?_eq_head?_drop l i

/-- Advancing the cursor over the head of the remaining tokens. -/
theorem drop_cons_succ : ∀ (f : List α) (i : Nat) (a : α) (t : List α),
    f.drop i = a :: t → f.drop (i + 1) = t
  | [], i, a, t => by simp
  | x :: xs, 0, a, t => by intro h; cases h; rfl
  | x :: xs, i + 1, a, t => by
    intro h
    exact drop_cons_succ xs i a t h

/-- Advancing the cursor over a whole prefix of the remaining tokens. -/
theorem drop_append_right : ∀ (l : List α) (f : List α) (i : Nat) (rest : List α),
    f.drop i = l ++ rest → f.drop (i + l.length) = rest
  | [], f, i, rest => by intro h; simpa using h
  | a :: l, f, i, rest => by
    intro h
    have h1 : f.drop (i + 1) = l ++ rest := drop_cons_succ f i a (l ++ rest) (by simpa using h)
    have h2 := drop_append_right l f (i + 1) rest h1
    simpa [Nat.add_assoc, Nat.add_comm 1 l.length] using h2

/-- The token under the cursor, read off the remaining tokens. -/
theorem tokenAt_of_drop {f : List String} {i : Nat} {l : List String}
    (h : f.drop i = l) : tokenAt f i = l.head? := by
  rw [tokenAt, get?_eq_head?_drop, h]

/-- `matchToken` never moves the cursor backwards. -/
theorem matchToken_idx_le (f : List String) (e : String) (s : EvalState) :
    s.idx ≤ (matchToken f e s).2.idx := by
  rw [matchToken]
  split
  · exact Nat.le_succ _
  · exact Nat.le_refl _

/-- None of the grammar productions ever moves the cursor backwards. -/
theorem parseMono (cfg : Config) (f : List String) : ∀ n : Nat,
    (∀ s out, factor cfg f n s = some out → s.idx ≤ out.2.idx) ∧
    (∀ v s out, termLoop cfg f n v s = some out → s.idx ≤ out.2.idx) ∧
    (∀ s out, term cfg f n s = some out → s.idx ≤ out.2.idx) ∧
    (∀ v s out, exprLoop cfg f n v s = some out → s.idx ≤ out.2.idx) ∧
    (∀ s out, expression cfg f n s = some out → s.idx ≤ out.2.idx) := by
  intro n
  induction n with
  | zero => simp [factor, termLoop, term, exprLoop, expression]
  | succ n ih =>
    obtain ⟨ihF, ihTL, ihT, ihEL, ihE⟩ := ih
    have hF : ∀ s out, factor cfg f (n + 1) s = some out → s.idx ≤ out.2.idx := by
      intro s out h
      rw [factor] at h
      split at h
      · cases h; exact Nat.le_succ _
      · split at h
        · split at h
          · cases h; exact Nat.le_succ _
          · cases h; exact Nat.le_succ _
        · split at h
          · split at h
            · exact absurd h (by simp)
            · rename_i v s1 heq
              cases h
              calc s.idx ≤ s.idx + 1 := Nat.le_succ _
                _ ≤ s1.idx := ihE _ _ heq
                _ ≤ _ := matchToken_idx_le f ")" s1
          · cases h; exact Nat.le_refl _
    have hTL : ∀ v s out, termLoop cfg f (n + 1) v s = some out → s.idx ≤ out.2.idx := by
      intro v s out h
      rw [termLoop] at h
      split at h
      · split at h
        · exact absurd h (by simp)
        · rename_i w s1 heq
          calc s.idx ≤ s.idx + 1 := Nat.le_succ _
            _ ≤ s1.idx := ihF _ _ heq
            _ ≤ out.2.idx := ihTL _ _ _ h
      · split at h
        · split at h
          · exact absurd h (by simp)
          · rename_i d s1 heq
            have h1 : s.idx + 1 ≤ s1.idx := ihF _ _ heq
            split at h
            · cases h
              exact Nat.le_trans (Nat.le_succ _) h1
            · calc s.idx ≤ s.idx + 1 := Nat.le_succ _
                _ ≤ s1.idx := h1
                _ ≤ out.2.idx := ihTL _ _ _ h
        · cases h; exact Nat.le_refl _
    have hT : ∀ s out, term cfg f (n + 1) s = some out → s.idx ≤ out.2.idx := by
      intro s out h
      rw [term] at h
      split at h
      · exact absurd h (by simp)
      · rename_i v s1 heq
        exact Nat.le_trans (ihF _ _ heq) (ihTL _ _ _ h)
    have hEL : ∀ v s out, exprLoop cfg f (n + 1) v s = some out → s.idx ≤ out.2.idx := by
      intro v s out h
      rw [exprLoop] at h
      split at h
      · split at h
        · exact absurd h (by simp)
        · rename_i w s1 heq
          calc s.idx ≤ s.idx + 1 := Nat.le_succ _
            _ ≤ s1.idx := ihT _ _ heq
            _ ≤ out.2.idx := ihEL _ _ _ h
      · split at h
        · split at h
          · exact absurd h (by simp)
          · rename_i w s1 heq
            calc s.idx ≤ s.idx + 1 := Nat.le_succ _
              _ ≤ s1.idx := ihT _ _ heq
              _ ≤ out.2.idx := ihEL _ _ _ h
        · cases h; exact Nat.le_refl _
    have hE : ∀ s out, expression cfg f (n + 1) s = some out → s.idx ≤ out.2.idx := by
      intro s out h
      rw [expression] at h
      split at h
      · exact absurd h (by simp)
      · rename_i v s1 heq
        exact Nat.le_trans (ihT _ _ heq) (ihEL _ _ _ h)
    exact ⟨hF, hTL, hT, hEL, hE⟩

/-- A cursor that reads a token is inside the formula. -/
theorem tokenAt_some_lt {f : List String} {i : Nat} {t : String}
    (h : tokenAt f i = some t) : i < f.length := by
  by_contra hgt
  rw [tokenAt, List.get?_eq_none.mpr (by omega)] at h
  exact absurd h (by simp)

/-- Fuel adequacy: with fuel at least an explicit bound in the number of
tokens still under the cursor, no grammar production runs out of fuel.  This
is the termination argument for the source's recursion: `factor` consumes a
token before recursing into `expression`, and each loop iteration consumes
its operator token. -/
theorem parseAdequate (cfg : Config) (f : List String) : ∀ r : Nat,
    (∀ s, f.length - s.idx ≤ r → ∀ fuel, 8 ^ (r + 1) ≤ fuel →
       ∃ out, factor cfg f fuel s = some out) ∧
    (∀ s, f.length - s.idx ≤ r → ∀ fuel, 2 * 8 ^ (r + 1) ≤ fuel → ∀ v,
       ∃ out, termLoop cfg f fuel v s = some out) ∧
    (∀ s, f.length - s.idx ≤ r → ∀ fuel, 3 * 8 ^ (r + 1) ≤ fuel →
       ∃ out, term cfg f fuel s = some out) ∧
    (∀ s, f.length - s.idx ≤ r → ∀ fuel, 4 * 8 ^ (r + 1) ≤ fuel → ∀ v,
       ∃ out, exprLoop cfg f fuel v s = some out) ∧
    (∀ s, f.length - s.idx ≤ r → ∀ fuel, 5 * 8 ^ (r + 1) ≤ fuel →
       ∃ out, expression cfg f fuel s = some out) := by
  intro r
  induction r using Nat.strong_induction_on with
  | _ r ih =>
  have hpos : ∀ k : Nat, 0 < 8 ^ k := fun k => Nat.pos_pow_of_pos k (by omega)
  have hF : ∀ s, f.length - s.idx ≤ r → ∀ fuel, 8 ^ (r + 1) ≤ fuel →
      ∃ out, factor cfg f fuel s = some out := by
    intro s hr fuel hfuel
    obtain ⟨m, rfl⟩ : ∃ m, fuel = m + 1 := ⟨fuel - 1, by have := hpos (r + 1); omega⟩
    rw [factor]
    split
    · exact ⟨_, rfl⟩
    · split
      · split
        · exact ⟨_, rfl⟩
        · exact ⟨_, rfl⟩
      · split
        · rename_i htok
          obtain ⟨r', rfl⟩ : ∃ r', r = r' + 1 := by
            have := tokenAt_some_lt htok
            exact ⟨r - 1, by omega⟩
          have hm : 5 * 8 ^ (r' + 1) ≤ m := by
            have h1 := hpos (r' + 1)
            have h2 : 8 ^ (r' + 1 + 1) = 8 ^ (r' + 1) * 8 := pow_succ 8 (r' + 1)
            omega
          have hr' : f.length - (s.idx + 1) ≤ r' := by omega
          obtain ⟨⟨v, s1⟩, hout⟩ :=
            (ih r' (by omega)).2.2.2.2 { s with idx := s.idx + 1 } hr' m hm
          rw [hout]
          exact ⟨_, rfl⟩
        · exact ⟨_, rfl⟩
  have hTL : ∀ s, f.length - s.idx ≤ r → ∀ fuel, 2 * 8 ^ (r + 1) ≤ fuel → ∀ v,
      ∃ out, termLoop cfg f fuel v s = some out := by
    intro s hr fuel hfuel v
    obtain ⟨m, rfl⟩ : ∃ m, fuel = m + 1 := ⟨fuel - 1, by have := hpos (r + 1); omega⟩
    rw [termLoop]
    split
    · rename_i htok
      obtain ⟨r', rfl⟩ : ∃ r', r = r' + 1 := by
        have := tokenAt_some_lt htok
        exact ⟨r - 1, by omega⟩
      have h1 := hpos (r' + 1)
      have h2 : 8 ^ (r' + 1 + 1) = 8 ^ (r' + 1) * 8 := pow_succ 8 (r' + 1)
      have hr1 : f.length - (s.idx + 1) ≤ r' := by omega
      obtain ⟨⟨w, s1⟩, hw⟩ :=
        (ih r' (by omega)).1 { s with idx := s.idx + 1 } hr1 m (by omega)
      rw [hw]
      have hidx : s.idx + 1 ≤ s1.idx := (parseMono cfg f m).1 _ _ hw
      obtain ⟨out2, hout2⟩ :=
        (ih r' (by omega)).2.1 s1 (by omega) m (by omega) (JSNum.mul v w)
      exact ⟨out2, hout2⟩
    · split
      · rename_i htok
        obtain ⟨r', rfl⟩ : ∃ r', r = r' + 1 := by
          have := tokenAt_some_lt htok
          exact ⟨r - 1, by omega⟩
        have h1 := hpos (r' + 1)
        have h2 : 8 ^ (r' + 1 + 1) = 8 ^ (r' + 1) * 8 := pow_succ 8 (r' + 1)
        have hr1 : f.length - (s.idx + 1) ≤ r' := by omega
        obtain ⟨⟨d, s1⟩, hw⟩ :=
          (ih r' (by omega)).1 { s with idx := s.idx + 1 } hr1 m (by omega)
        simp only [hw]
        have hidx : s.idx + 1 ≤ s1.idx := (parseMono cfg f m).1 _ _ hw
        split
        · exact ⟨_, rfl⟩
        · obtain ⟨out2, hout2⟩ :=
            (ih r' (by omega)).2.1 s1 (by omega) m (by omega) (JSNum.div v d)
          exact ⟨out2, hout2⟩
      · exact ⟨_, rfl⟩
  have hT : ∀ s, f.length - s.idx ≤ r → ∀ fuel, 3 * 8 ^ (r + 1) ≤ fuel →
      ∃ out, term cfg f fuel s = some out := by
    intro s hr fuel hfuel
    obtain ⟨m, rfl⟩ : ∃ m, fuel = m + 1 := ⟨fuel - 1, by have := hpos (r + 1); omega⟩
    have h1 := hpos (r + 1)
    rw [term]
    obtain ⟨⟨v, s1⟩, hv⟩ := hF s hr m (by omega)
    rw [hv]
    have hidx : s.idx ≤ s1.idx := (parseMono cfg f m).1 _ _ hv
    obtain ⟨out2, hout2⟩ := hTL s1 (by omega) m (by omega) v
    exact ⟨out2, hout2⟩
  have hEL : ∀ s, f.length - s.idx ≤ r → ∀ fuel, 4 * 8 ^ (r + 1) ≤ fuel → ∀ v,
      ∃ out, exprLoop cfg f fuel v s = some out := by
    intro s hr fuel hfuel v
    obtain ⟨m, rfl⟩ : ∃ m, fuel = m + 1 := ⟨fuel - 1, by have := hpos (r + 1); omega⟩
    rw [exprLoop]
    split
    · rename_i htok
      obtain ⟨r', rfl⟩ : ∃ r', r = r' + 1 := by
        have := tokenAt_some_lt htok
        exact ⟨r - 1, by omega⟩
      have h1 := hpos (r' + 1)
      have h2 : 8 ^ (r' + 1 + 1) = 8 ^ (r' + 1) * 8 := pow_succ 8 (r' + 1)
      have hr1 : f.length - (s.idx + 1) ≤ r' := by omega
      obtain ⟨⟨w, s1⟩, hw⟩ :=
        (ih r' (by omega)).2.2.1 { s with idx := s.idx + 1 } hr1 m (by omega)
      rw [hw]
      have hidx : s.idx + 1 ≤ s1.idx := (parseMono cfg f m).2.2.1 _ _ hw
      obtain ⟨out2, hout2⟩ :=
        (ih r' (by omega)).2.2.2.1 s1 (by omega) m (by omega) (JSNum.add v w)
      exact ⟨out2, hout2⟩
    · split
      · rename_i htok
        obtain ⟨r', rfl⟩ : ∃ r', r = r' + 1 := by
          have := tokenAt_some_lt htok
          exact ⟨r - 1, by omega⟩
        have h1 := hpos (r' + 1)
        have h2 : 8 ^ (r' + 1 + 1) = 8 ^ (r' + 1) * 8 := pow_succ 8 (r' + 1)
        have hr1 : f.length - (s.idx + 1) ≤ r' := by omega
        obtain ⟨⟨w, s1⟩, hw⟩ :=
          (ih r' (by omega)).2.2.1 { s with idx := s.idx + 1 } hr1 m (by omega)
        rw [hw]
        have hidx : s.idx + 1 ≤ s1.idx := (parseMono cfg f m).2.2.1 _ _ hw
        obtain ⟨out2, hout2⟩ :=
          (ih r' (by omega)).2.2.2.1 s1 (by omega) m (by omega) (JSNum.sub v w)
        exact ⟨out2, hout2⟩
      · exact ⟨_, rfl⟩
  have hE : ∀ s, f.length - s.idx ≤ r → ∀ fuel, 5 * 8 ^ (r + 1) ≤ fuel →
      ∃ out, expression cfg f fuel s = some out := by
    intro s hr fuel hfuel
    obtain ⟨m, rfl⟩ : ∃ m, fuel = m + 1 := ⟨fuel - 1, by have := hpos (r + 1); omega⟩
    have h1 := hpos (r + 1)
    rw [expression]
    obtain ⟨⟨v, s1⟩, hv⟩ := hT s hr m (by omega)
    rw [hv]
    have hidx : s.idx ≤ s1.idx := (parseMono cfg f m).2.2.1 _ _ hv
    obtain ⟨out2, hout2⟩ := hEL s1 (by omega) m (by omega) v
    exact ⟨out2, hout2⟩
  exact ⟨hF, hTL, hT, hEL, hE⟩

/-- The fuel `evaluate` passes to `expression` is adequate from any state. -/
theorem evalFuel_adequate (cfg : Config) (f : List String) (s : EvalState) :
    ∃ out, expression cfg f (evalFuel f) s = some out := by
  have h := (parseAdequate cfg f f.length).2.2.2.2 s (by omega) (evalFuel f)
  apply h
  rw [evalFuel]
  omega

/-- A finite `JSNum` is `fin` of its rational. -/
theorem isFin_eq_fin {x : JSNum} (h : x.isFin = true) : x = JSNum.fin x.toRat := by
  cases x <;> simp [JSNum.isFin, JSNum.toRat] at h ⊢

/-- A token `Number()` maps to a finite value passes the numeric test. -/
theorem isNumber_of_isFin {t : String} (h : (jsNumberStr t).isFin = true) :
    isNumber (some t) = true := by
  rw [isNumber]
  split
  · rename_i hn
    rw [jsNumber] at hn
    rw [hn] at h
    exact absurd h (by simp [JSNum.isFin])
  · rfl

/-- An opening parenthesis is not a numeric token. -/
theorem isNumber_lparen : isNumber (some "(") = false := by decide

/-- Finite addition is exact rational addition. -/
theorem JSNum.add_fin (a b : ℚ) : JSNum.add (JSNum.fin a) (JSNum.fin b) = JSNum.fin (a + b) := rfl

/-- Finite subtraction is exact rational subtraction. -/
theorem JSNum.sub_fin (a b : ℚ) : JSNum.sub (JSNum.fin a) (JSNum.fin b) = JSNum.fin (a - b) := rfl

/-- Finite multiplication is exact rational multiplication. -/
theorem JSNum.mul_fin (a b : ℚ) : JSNum.mul (JSNum.fin a) (JSNum.fin b) = JSNum.fin (a * b) := rfl

/-- Finite division by a nonzero rational is exact rational division. -/
theorem JSNum.div_fin {b : ℚ} (a : ℚ) (hb : b ≠ 0) :
    JSNum.div (JSNum.fin a) (JSNum.fin b) = JSNum.fin (a / b) := by
  rw [JSNum.div]
  exact if_neg hb

/-- What follows a flattened expression tail cannot continue a term. -/
theorem stopT_flattenER (er : ExpRest) (rest : List String) (h : stopE rest) :
    stopT (flattenER er ++ rest) := by
  cases er with
  | nil => simpa [flattenER] using h.1
  | add t r => constructor <;> simp [flattenER]
  | sub t r => constructor <;> simp [flattenER]

/-- Parser correctness on the well-formed literal fragment: whenever the
tokens under the cursor are the flattening of a well-formed AST node followed
by tokens that cannot continue the production, a successful run of the
corresponding production returns exactly the node's mathematical value and
moves the cursor past the node, leaving every other state field unchanged.
Stated for every fuel, by induction on fuel; fuel adequacy supplies the
successful run. -/
theorem parseCorrect (cfg : Config) (f : List String)
    (href : cfg.isCellReference (some "(") = false) : ∀ n : Nat,
    (∀ s fa rest out, f.drop s.idx = flattenF fa ++ rest → goodF fa = true →
       factor cfg f n s = some out →
       out = (JSNum.fin (qdenoF fa), { s with idx := s.idx + (flattenF fa).length })) ∧
    (∀ s tr rest a out, f.drop s.idx = flattenTR tr ++ rest → goodTR tr = true → stopT rest →
       termLoop cfg f n (JSNum.fin a) s = some out →
       out = (JSNum.fin (qdenoTR a tr), { s with idx := s.idx + (flattenTR tr).length })) ∧
    (∀ s t rest out, f.drop s.idx = flattenT t ++ rest → goodT t = true → stopT rest →
       term cfg f n s = some out →
       out = (JSNum.fin (qdenoT t), { s with idx := s.idx + (flattenT t).length })) ∧
    (∀ s er rest a out, f.drop s.idx = flattenER er ++ rest → goodER er = true → stopE rest →
       exprLoop cfg f n (JSNum.fin a) s = some out →
       out = (JSNum.fin (qdenoER a er), { s with idx := s.idx + (flattenER er).length })) ∧
    (∀ s e rest out, f.drop s.idx = flattenE e ++ rest → goodE e = true → stopE rest →
       expression cfg f n s = some out →
       out = (JSNum.fin (qdenoE e), { s with idx := s.idx + (flattenE e).length })) := by
  intro n
  induction n with
  | zero =>
    refine ⟨?_, ?_, ?_, ?_, ?_⟩ <;>
      (intros; simp_all [factor, termLoop, term, exprLoop, expression])
  | succ n ih =>
    obtain ⟨ihF, ihTL, ihT, ihEL, ihE⟩ := ih
    have hFc : ∀ s fa rest out, f.drop s.idx = flattenF fa ++ rest → goodF fa = true →
        factor cfg f (n + 1) s = some out →
        out = (JSNum.fin (qdenoF fa), { s with idx := s.idx + (flattenF fa).length }) := by
      intro s fa rest out hd hg h
      cases fa with
      | num t =>
        rw [flattenF] at hd
        have htok : tokenAt f s.idx = some t := by rw [tokenAt_of_drop hd]; rfl
        rw [goodF] at hg
        rw [factor, htok, if_pos (isNumber_of_isFin hg)] at h
        injection h with h2
        subst h2
        have hv : jsNumber (some t) = JSNum.fin ((jsNumberStr t).toRat) := by
          rw [jsNumber]
          exact isFin_eq_fin hg
        simp [hv, qdenoF, flattenF]
      | paren e =>
        rw [flattenF] at hd
        have htok : tokenAt f s.idx = some "(" := by
          rw [tokenAt_of_drop hd]; rfl
        rw [goodF] at hg
        rw [factor, htok] at h
        rw [if_neg (by simp [isNumber_lparen]), if_neg (by simp [href]), if_pos rfl] at h
        cases heq : expression cfg f n { s with idx := s.idx + 1 } with
        | none => rw [heq] at h; exact absurd h (by simp)
        | some p =>
          obtain ⟨v, s1⟩ := p
          simp only [heq] at h
          injection h with h2
          subst h2
          have hd1 : f.drop (s.idx + 1) = flattenE e ++ (")" :: rest) :=
            drop_cons_succ f s.idx "(" _ (by simpa [List.append_assoc] using hd)
          have hstop : stopE (")" :: rest) := by
            refine ⟨⟨?_, ?_⟩, ?_, ?_⟩ <;> simp
          have he1 := ihE _ e (")" :: rest) (v, s1) hd1 hg hstop heq
          injection he1 with hv1 hs1
          subst hv1
          subst hs1
          have hd2 : f.drop (s.idx + 1 + (flattenE e).length) = ")" :: rest :=
            drop_append_right (flattenE e) f (s.idx + 1) _ hd1
          have htok2 : tokenAt f (s.idx + 1 + (flattenE e).length) = some ")" := by
            rw [tokenAt_of_drop hd2]; rfl
          rw [qdenoF]
          rw [matchToken]
          simp only [htok2, if_pos]
          simp [flattenF, EvalState.mk.injEq]
          omega
    have hTLc : ∀ s tr rest a out, f.drop s.idx = flattenTR tr ++ rest → goodTR tr = true →
        stopT rest → termLoop cfg f (n + 1) (JSNum.fin a) s = some out →
        out = (JSNum.fin (qdenoTR a tr), { s with idx := s.idx + (flattenTR tr).length }) := by
      intro s tr rest a out hd hg hstop h
      cases tr with
      | nil =>
        rw [flattenTR] at hd
        have htok : tokenAt f s.idx = rest.head? := by
          rw [tokenAt_of_drop hd]; rfl
        rw [termLoop] at h
        rw [if_neg (by rw [htok]; exact hstop.1), if_neg (by rw [htok]; exact hstop.2)] at h
        injection h with h2
        subst h2
        simp [qdenoTR, flattenTR]
      | mul fa r =>
        rw [flattenTR] at hd
        have htok : tokenAt f s.idx = some "*" := by rw [tokenAt_of_drop hd]; rfl
        have hgs : goodF fa = true ∧ goodTR r = true := by
          simpa [goodTR, Bool.and_eq_true] using hg
        rw [termLoop, htok, if_pos rfl] at h
        cases heq : factor cfg f n { s with idx := s.idx + 1 } with
        | none => rw [heq] at h; exact absurd h (by simp)
        | some p =>
          obtain ⟨w, s1⟩ := p
          simp only [heq] at h
          have hd1 : f.drop (s.idx + 1) = flattenF fa ++ (flattenTR r ++ rest) :=
            drop_cons_succ f s.idx "*" _ (by simpa [List.append_assoc] using hd)
          have he1 := ihF _ fa (flattenTR r ++ rest) (w, s1) hd1 hgs.1 heq
          injection he1 with hv1 hs1
          subst hv1
          subst hs1
          rw [JSNum.mul_fin] at h
          have hd2 : f.drop (s.idx + 1 + (flattenF fa).length) = flattenTR r ++ rest :=
            drop_append_right (flattenF fa) f (s.idx + 1) _ hd1
          have he2 := ihTL _ r rest (a * qdenoF fa) out hd2 hgs.2 hstop h
          rw [he2]
          simp [qdenoTR, flattenTR, EvalState.mk.injEq]
          omega
      | div fa r =>
        rw [flattenTR] at hd
        have htok : tokenAt f s.idx = some "/" := by rw [tokenAt_of_drop hd]; rfl
        have hgs : goodF fa = true ∧ qdenoF fa ≠ 0 ∧ goodTR r = true := by
          simpa [goodTR, Bool.and_eq_true, decide_eq_true_eq, and_assoc] using hg
        rw [termLoop, htok] at h
        rw [if_neg (by simp), if_pos rfl] at h
        cases heq : factor cfg f n { s with idx := s.idx + 1 } with
        | none => rw [heq] at h; exact absurd h (by simp)
        | some p =>
          obtain ⟨d, s1⟩ := p
          simp only [heq] at h
          have hd1 : f.drop (s.idx + 1) = flattenF fa ++ (flattenTR r ++ rest) :=
            drop_cons_succ f s.idx "/" _ (by simpa [List.append_assoc] using hd)
          have he1 := ihF _ fa (flattenTR r ++ rest) (d, s1) hd1 hgs.1 heq
          injection he1 with hv1 hs1
          subst hv1
          subst hs1
          rw [if_neg (by simp [hgs.2.1]), JSNum.div_fin a hgs.2.1] at h
          have hd2 : f.drop (s.idx + 1 + (flattenF fa).length) = flattenTR r ++ rest :=
            drop_append_right (flattenF fa) f (s.idx + 1) _ hd1
          have he2 := ihTL _ r rest (a / qdenoF fa) out hd2 hgs.2.2 hstop h
          rw [he2]
          simp [qdenoTR, flattenTR, EvalState.mk.injEq]
          omega
    have hTc : ∀ s t rest out, f.drop s.idx = flattenT t ++ rest → goodT t = true →
        stopT rest → term cfg f (n + 1) s = some out →
        out = (JSNum.fin (qdenoT t), { s with idx := s.idx + (flattenT t).length }) := by
      intro s t rest out hd hg hstop h
      obtain ⟨fa, tr⟩ := t
      rw [flattenT] at hd
      have hgs : goodF fa = true ∧ goodTR tr = true := by
        simpa [goodT, Bool.and_eq_true] using hg
      rw [term] at h
      cases heq : factor cfg f n s with
      | none => rw [heq] at h; exact absurd h (by simp)
      | some p =>
        obtain ⟨v, s1⟩ := p
        simp only [heq] at h
        have hd0 : f.drop s.idx = flattenF fa ++ (flattenTR tr ++ rest) := by
          simpa [List.append_assoc] using hd
        have he1 := ihF _ fa (flattenTR tr ++ rest) (v, s1) hd0 hgs.1 heq
        injection he1 with hv1 hs1
        subst hv1
        subst hs1
        have hd2 : f.drop (s.idx + (flattenF fa).length) = flattenTR tr ++ rest :=
          drop_append_right (flattenF fa) f s.idx _ hd0
        have he2 := ihTL _ tr rest (qdenoF fa) out hd2 hgs.2 hstop h
        rw [he2]
        simp [qdenoT, flattenT, EvalState.mk.injEq]
        omega
    have hELc : ∀ s er rest a out, f.drop s.idx = flattenER er ++ rest → goodER er = true →
        stopE rest → exprLoop cfg f (n + 1) (JSNum.fin a) s = some out →
        out = (JSNum.fin (qdenoER a er), { s with idx := s.idx + (flattenER er).length }) := by
      intro s er rest a out hd hg hstop h
      cases er with
      | nil =>
        rw [flattenER] at hd
        have htok : tokenAt f s.idx = rest.head? := by
          rw [tokenAt_of_drop hd]; rfl
        rw [exprLoop] at h
        rw [if_neg (by rw [htok]; exact hstop.2.1), if_neg (by rw [htok]; exact hstop.2.2)] at h
        injection h with h2
        subst h2
        simp [qdenoER, flattenER]
      | add t r =>
        rw [flattenER] at hd
        have htok : tokenAt f s.idx = some "+" := by rw [tokenAt_of_drop hd]; rfl
        have hgs : goodT t = true ∧ goodER r = true := by
          simpa [goodER, Bool.and_eq_true] using hg
        rw [exprLoop, htok, if_pos rfl] at h
        cases heq : term cfg f n { s with idx := s.idx + 1 } with
        | none => rw [heq] at h; exact absurd h (by simp)
        | some p =>
          obtain ⟨w, s1⟩ := p
          simp only [heq] at h
          have hd1 : f.drop (s.idx + 1) = flattenT t ++ (flattenER r ++ rest) :=
            drop_cons_succ f s.idx "+" _ (by simpa [List.append_assoc] using hd)
          have he1 := ihT _ t (flattenER r ++ rest) (w, s1) hd1 hgs.1
            (stopT_flattenER r rest hstop) heq
          injection he1 with hv1 hs1
          subst hv1
          subst hs1
          rw [JSNum.add_fin] at h
          have hd2 : f.drop (s.idx + 1 + (flattenT t).length) = flattenER r ++ rest :=
            drop_append_right (flattenT t) f (s.idx + 1) _ hd1
          have he2 := ihEL _ r rest (a + qdenoT t) out hd2 hgs.2 hstop h
          rw [he2]
          simp [qdenoER, flattenER, EvalState.mk.injEq]
          omega
      | sub t r =>
        rw [flattenER] at hd
        have htok : tokenAt f s.idx = some "-" := by rw [tokenAt_of_drop hd]; rfl
        have hgs : goodT t = true ∧ goodER r = true := by
          simpa [goodER, Bool.and_eq_true] using hg
        rw [exprLoop, htok] at h
        rw [if_neg (by simp), if_pos rfl] at h
        cases heq : term cfg f n { s with idx := s.idx + 1 } with
        | none => rw [heq] at h; exact absurd h (by simp)
        | some p =>
          obtain ⟨w, s1⟩ := p
          simp only [heq] at h
          have hd1 : f.drop (s.idx + 1) = flattenT t ++ (flattenER r ++ rest) :=
            drop_cons_succ f s.idx "-" _ (by simpa [List.append_assoc] using hd)
          have he1 := ihT _ t (flattenER r ++ rest) (w, s1) hd1 hgs.1
            (stopT_flattenER r rest hstop) heq
          injection he1 with hv1 hs1
          subst hv1
          subst hs1
          rw [JSNum.sub_fin] at h
          have hd2 : f.drop (s.idx + 1 + (flattenT t).length) = flattenER r ++ rest :=
            drop_append_right (flattenT t) f (s.idx + 1) _ hd1
          have he2 := ihEL _ r rest (a - qdenoT t) out hd2 hgs.2 hstop h
          rw [he2]
          simp [qdenoER, flattenER, EvalState.mk.injEq]
          omega
    have hEc : ∀ s e rest out, f.drop s.idx = flattenE e ++ rest → goodE e = true →
        stopE rest → expression cfg f (n + 1) s = some out →
        out = (JSNum.fin (qdenoE e), { s with idx := s.idx + (flattenE e).length }) := by
      intro s e rest out hd hg hstop h
      obtain ⟨t, er⟩ := e
      rw [flattenE] at hd
      have hgs : goodT t = true ∧ goodER er = true := by
        simpa [goodE, Bool.and_eq_true] using hg
      rw [expression] at h
      cases heq : term cfg f n s with
      | none => rw [heq] at h; exact absurd h (by simp)
      | some p =>
        obtain ⟨v, s1⟩ := p
        simp only [heq] at h
        have hd0 : f.drop s.idx = flattenT t ++ (flattenER er ++ rest) := by
          simpa [List.append_assoc] using hd
        have he1 := ihT _ t (flattenER er ++ rest) (v, s1) hd0 hgs.1
          (stopT_flattenER er rest hstop) heq
        injection he1 with hv1 hs1
        subst hv1
        subst hs1
        have hd2 : f.drop (s.idx + (flattenT t).length) = flattenER er ++ rest :=
          drop_append_right (flattenT t) f s.idx _ hd0
        have he2 := ihEL _ er rest (qdenoT t) out hd2 hgs.2 hstop h
        rw [he2]
        simp [qdenoE, flattenE, EvalState.mk.injEq]
        omega
    exact ⟨hFc, hTLc, hTc, hELc, hEc⟩

/-- Every factor contributes at least one token. -/
theorem flattenF_length_pos (fa : AFactor) : 0 < (flattenF fa).length := by
  cases fa <;> simp [flattenF]

/-- Every term contributes at least one token. -/
theorem flattenT_length_pos (t : ATerm) : 0 < (flattenT t).length := by
  obtain ⟨fa, tr⟩ := t
  have h := flattenF_length_pos fa
  simp only [flattenT, List.length_append]
  omega

/-- Every expression contributes at least one token. -/
theorem flattenE_length_pos (e : AExp) : 0 < (flattenE e).length := by
  obtain ⟨t, er⟩ := e
  have h := flattenT_length_pos t
  simp only [flattenE, List.length_append]
  omega

/-- Adequacy and correctness combined: on the flattening of a well-formed
expression (followed by tokens that cannot continue it), `expression` with
enough fuel succeeds with the expression's mathematical value, moving the
cursor past it and touching no other state field. -/
theorem expression_flatten (cfg : Config) (f : List String) (s : EvalState) (e : AExp)
    (rest : List String) (fuel : Nat)
    (href : cfg.isCellReference (some "(") = false)
    (hd : f.drop s.idx = flattenE e ++ rest) (hg : goodE e = true) (hstop : stopE rest)
    (hfuel : 5 * 8 ^ (f.length - s.idx + 1) ≤ fuel) :
    expression cfg f fuel s =
      some (JSNum.fin (qdenoE e), { s with idx := s.idx + (flattenE e).length }) := by
  obtain ⟨out, hout⟩ :=
    (parseAdequate cfg f (f.length - s.idx)).2.2.2.2 s (Nat.le_refl _) fuel hfuel
  rw [hout, (parseCorrect cfg f href fuel).2.2.2.2 s e rest out hd hg hstop hout]

/-- `evaluate` on the flattening of a well-formed expression returns its
mathematical value with no error latched, and stores it in both `_result`
and `_lastResult`. -/
theorem evaluate_flattenE (cfg : Config) (prev : EvalState) (e : AExp)
    (hg : goodE e = true) (href : cfg.isCellReference (some "(") = false) :
    evaluate cfg (flattenE e) prev =
      (JSNum.fin (qdenoE e),
       { idx := (flattenE e).length, errorOccurred := false, errorMessage := "",
         result := JSNum.fin (qdenoE e), lastResult := JSNum.fin (qdenoE e) }) := by
  have hpos := flattenE_length_pos e
  have hexp : expression cfg (flattenE e) (evalFuel (flattenE e)) (initState prev) =
      some (JSNum.fin (qdenoE e),
        { initState prev with idx := 0 + (flattenE e).length }) := by
    refine expression_flatten cfg (flattenE e) (initState prev) e [] _ href ?_ hg ?_ ?_
    · simp [initState]
    · exact ⟨⟨by simp, by simp⟩, by simp, by simp⟩
    · rw [evalFuel]
      have h1 : 0 < (8:Nat) ^ ((flattenE e).length + 1) := Nat.pos_pow_of_pos _ (by omega)
      have h2 : (flattenE e).length - (initState prev).idx = (flattenE e).length := by
        simp [initState]
      rw [h2]
      omega
  rw [evaluate, if_neg (by omega)]
  simp only [hexp]
  rw [if_neg (by rw [initState]; simp)]
  rw [initState]
  simp

/-- Claim C2 (confirmed): for every well-formed token sequence built from
numeric literals, the four operators and parentheses — exactly the
flattenings of the grammar's ASTs — with every literal accepted by the
numeric predicate with a finite value and no divisor evaluating to zero,
`evaluate` returns the mathematically exact value under left-associative
evaluation with `*`,`/` binding tighter than `+`,`-` (the `qdenoE`
denotation), latching no error; in particular
`["3","+","4","*","2"] ↦ 11` and `["10","-","2","-","3"] ↦ 5` (witness).
Finite arithmetic is modelled as exact rational arithmetic. -/
theorem claim2_wellFormed_eval (cfg : Config) (prev : EvalState) (e : AExp)
    (hg : goodE e = true) (href : cfg.isCellReference (some "(") = false) :
    evaluate cfg (flattenE e) prev =
      (JSNum.fin (qdenoE e),
       { idx := (flattenE e).length, errorOccurred := false, errorMessage := "",
         result := JSNum.fin (qdenoE e), lastResult := JSNum.fin (qdenoE e) }) :=
  evaluate_flattenE cfg prev e hg href

/-- Witness for C2: the two examples named by the claim, obtained from the
theorem at the ASTs of `["3","+","4","*","2"]` and `["10","-","2","-","3"]`. -/
theorem claim2_witness :
    evaluate cfg0 ["3", "+", "4", "*", "2"] st0 =
      (JSNum.fin 11, { idx := 5, errorOccurred := false, errorMessage := "",
                       result := JSNum.fin 11, lastResult := JSNum.fin 11 }) ∧
    evaluate cfg0 ["10", "-", "2", "-", "3"] st0 =
      (JSNum.fin 5, { idx := 5, errorOccurred := false, errorMessage := "",
                      result := JSNum.fin 5, lastResult := JSNum.fin 5 }) := by
  constructor
  · have h := claim2_wellFormed_eval cfg0 st0 astA (by decide) rfl
    rw [show qdenoE astA = 11 from by decide] at h
    exact h
  · have h := claim2_wellFormed_eval cfg0 st0 astB (by decide) rfl
    rw [show qdenoE astB = 5 from by decide] at h
    exact h

/-- Claim C9 (confirmed): `evaluate` is total.  For every configuration
(cell store and reference oracle), formula and starting state, the fuel
`evaluate` hands the recursive-descent parser is never exhausted — the
recursion terminates — and `evaluate` returns a value and a state; in the
embedding all failure is a returned value plus latched state, never an
exception. -/
theorem claim9_evaluate_total (cfg : Config) (f : List String) (s : EvalState) :
    (∃ out, expression cfg f (evalFuel f) s = some out) ∧
    ∃ v s2, evaluate cfg f s = (v, s2) :=
  ⟨evalFuel_adequate cfg f s, ⟨_, _, rfl⟩⟩

/-- Claim C8 (confirmed): on the empty token sequence `evaluate` returns `0`,
latches the empty-formula message, and leaves `_result` and `_lastResult` at
whatever the previous evaluation left (the per-call reset touches only the
cursor, the error flag and the message). -/
theorem claim8_emptyFormula (cfg : Config) (prev : EvalState) :
    evaluate cfg [] prev =
      (JSNum.fin 0,
       { idx := 0, errorOccurred := false, errorMessage := ErrorMessages.emptyFormula,
         result := prev.result, lastResult := prev.lastResult }) := rfl

/-- Claim C7 (confirmed): when the parse finishes with the error flag still
clear but the cursor short of the end, `evaluate` latches `invalidFormula`
and returns `0`, discarding the computed value from its return (the value
remains in the `_result` field). -/
theorem claim7_trailingTokens (cfg : Config) (f : List String) (prev : EvalState)
    (v : JSNum) (s1 : EvalState) (hne : f.length ≠ 0)
    (h1 : expression cfg f (evalFuel f) (initState prev) = some (v, s1))
    (h2 : s1.idx ≠ f.length) (h3 : s1.errorOccurred = false) :
    evaluate cfg f prev =
      (JSNum.fin 0,
       { s1 with result := v, lastResult := v,
                 errorMessage := ErrorMessages.invalidFormula }) := by
  rw [evaluate, if_neg hne]
  simp only [h1]
  rw [if_pos ⟨h2, h3⟩]

/-- Witness for C7: the spec's example `["3","+","4",")"]`. -/
theorem claim7_witness :
    evaluate cfg0 ["3", "+", "4", ")"] st0 =
      (JSNum.fin 0,
       { idx := 3, errorOccurred := false, errorMessage := ErrorMessages.invalidFormula,
         result := JSNum.fin 7, lastResult := JSNum.fin 7 }) := by
  have h := claim7_trailingTokens cfg0 ["3", "+", "4", ")"] st0 (JSNum.fin 7)
    { idx := 3, errorOccurred := false, errorMessage := "",
      result := JSNum.fin 0, lastResult := JSNum.fin 0 }
    (by decide) (by decide) (by decide) (by decide)
  simpa using h

/-- Counterexample to C3 as stated: after `evaluate ["3","+","4",")"]` the
`result` accessor holds `7`, not `0` — only the returned value is forced to
`0` in the trailing-tokens case. -/
theorem claim3_counterexample :
    (evaluate cfg0 ["3", "+", "4", ")"] st0).1 = JSNum.fin 0 ∧
    (evaluate cfg0 ["3", "+", "4", ")"] st0).2.result = JSNum.fin 7 ∧
    JSNum.fin (7 : ℚ) ≠ JSNum.fin 0 := by decide

/-- Claim C3 (corrected): after a call on a non-empty formula the `result`
accessor holds the value computed by the top-level `expression` parse — also
in the trailing-tokens case, where only the returned value is `0`; an
empty-formula call leaves the `result` accessor unchanged (and returns `0`),
it does not force the accessor to `0`. -/
theorem claim3_result_accessor (cfg : Config) (f : List String) (prev : EvalState)
    (v : JSNum) (s1 : EvalState) (hne : f.length ≠ 0)
    (h1 : expression cfg f (evalFuel f) (initState prev) = some (v, s1)) :
    (evaluate cfg f prev).2.result = v ∧
    (evaluate cfg [] prev).2.result = prev.result := by
  constructor
  · rw [evaluate, if_neg hne]
    simp only [h1]
    split <;> rfl
  · rfl

/-- Witness for C3's corrected claim, at `["3","+","4",")"]`. -/
theorem claim3_witness :
    (evaluate cfg0 ["3", "+", "4", ")"] st0).2.result = JSNum.fin 7 ∧
    (evaluate cfg0 [] st0).2.result = st0.result := by
  have h := claim3_result_accessor cfg0 ["3", "+", "4", ")"] st0 (JSNum.fin 7)
    { idx := 3, errorOccurred := false, errorMessage := "",
      result := JSNum.fin 0, lastResult := JSNum.fin 0 }
    (by decide) (by decide)
  exact ⟨h.1, h.2⟩

/-- Counterexample to C4 as stated: `evaluate ["+"]` hits the bad-factor
branch (the invalid-formula message and the error flag are latched), yet
`lastResult` ends as `0`, not NaN — the final assignment
`_lastResult = _result` overwrites the transient NaN. -/
theorem claim4_counterexample :
    (evaluate cfg0 ["+"] st0).2.errorMessage = ErrorMessages.invalidFormula ∧
    (evaluate cfg0 ["+"] st0).2.errorOccurred = true ∧
    (evaluate cfg0 ["+"] st0).2.lastResult = JSNum.fin 0 ∧
    JSNum.fin (0 : ℚ) ≠ JSNum.nan := by decide

/-- Claim C4 (corrected): after any call on a non-empty formula,
`lastResult` equals the `result` accessor — `evaluate` unconditionally
overwrites `_lastResult` with the parsed value, so the NaN (malformed token,
reference error) and Infinity (divide-by-zero) values latched during parsing
survive only if the parsed value itself is NaN or Infinity; an empty-formula
call leaves `lastResult` unchanged. -/
theorem claim4_lastResult_eq_result (cfg : Config) (f : List String) (prev : EvalState)
    (hne : f.length ≠ 0) :
    (evaluate cfg f prev).2.lastResult = (evaluate cfg f prev).2.result ∧
    (evaluate cfg [] prev).2.lastResult = prev.lastResult := by
  constructor
  · obtain ⟨⟨v, s1⟩, h1⟩ := evalFuel_adequate cfg f (initState prev)
    rw [evaluate, if_neg hne]
    simp only [h1]
    split <;> rfl
  · rfl

/-- Witness for C4's corrected claim, at the malformed formula `["+"]`. -/
theorem claim4_witness :
    (evaluate cfg0 ["+"] st0).2.lastResult = (evaluate cfg0 ["+"] st0).2.result ∧
    (evaluate cfg0 [] st0).2.lastResult = st0.lastResult :=
  claim4_lastResult_eq_result cfg0 ["+"] st0 (by decide)

/-- Counterexample to C1 as stated: in `["5","-","1","/","0"]` the zero
divisor latches the divide-by-zero message, but the outer expression's `-`
is still applied to the propagated Infinity, so both the returned value and
`lastResult` are `-Infinity`, not `Infinity` — the claim's "regardless of the
surrounding terms" and "no further operators in any outer expression are
evaluated" fail. -/
theorem claim1_counterexample :
    (evaluate cfg0 ["5", "-", "1", "/", "0"] st0).1 = JSNum.negInf ∧
    (evaluate cfg0 ["5", "-", "1", "/", "0"] st0).2.lastResult = JSNum.negInf ∧
    (evaluate cfg0 ["5", "-", "1", "/", "0"] st0).2.errorMessage = ErrorMessages.divideByZero ∧
    JSNum.negInf ≠ JSNum.posInf := by decide

/-- Claim C1 (corrected): when `/` meets a divisor factor evaluating to `0`,
the enclosing term is abandoned at once — the divide-by-zero message and the
error flag are latched, `_lastResult` is set to Infinity, and Infinity is
returned as the term's value without evaluating any further operator of that
term.  Operators of outer expressions are still applied to that Infinity, so
the overall result is Infinity when the surroundings preserve it (as in the
spec's `["1","+","5","/","0"]`, the witness) but can be `-Infinity` or NaN
otherwise. -/
theorem claim1_divideByZero_shortCircuit (cfg : Config) (f : List String) (fuel : Nat)
    (v : JSNum) (s s1 : EvalState)
    (htok : tokenAt f s.idx = some "/")
    (hdiv : factor cfg f fuel { s with idx := s.idx + 1 } = some (JSNum.fin 0, s1)) :
    termLoop cfg f (fuel + 1) v s =
      some (JSNum.posInf,
        { s1 with errorOccurred := true, errorMessage := ErrorMessages.divideByZero,
                  lastResult := JSNum.posInf }) := by
  rw [termLoop, htok]
  rw [if_neg (by simp), if_pos rfl]
  simp only [hdiv]
  simp

/-- Witness for C1's corrected claim: the divide-by-zero step inside the
spec's example `["1","+","5","/","0"]`, at the cursor position of its `/`. -/
theorem claim1_witness :
    termLoop cfg0 ["1", "+", "5", "/", "0"] 4 (JSNum.fin 5)
      { idx := 3, errorOccurred := false, errorMessage := "",
        result := JSNum.fin 0, lastResult := JSNum.fin 0 } =
      some (JSNum.posInf,
        { idx := 5, errorOccurred := true, errorMessage := ErrorMessages.divideByZero,
          result := JSNum.fin 0, lastResult := JSNum.posInf }) := by
  have h := claim1_divideByZero_shortCircuit cfg0 ["1", "+", "5", "/", "0"] 3 (JSNum.fin 5)
    { idx := 3, errorOccurred := false, errorMessage := "",
      result := JSNum.fin 0, lastResult := JSNum.fin 0 }
    { idx := 5, errorOccurred := false, errorMessage := "",
      result := JSNum.fin 0, lastResult := JSNum.fin 0 }
    (by decide) (by decide)
  simpa using h

/-- A string of whitespace alone trims to nothing. -/
theorem trimChars_all_space {l : List Char} (h : l.all isSpaceChar = true) :
    trimChars l = [] := by
  rw [trimChars]
  have h1 : l.dropWhile isSpaceChar = [] :=
    List.dropWhile_eq_nil_iff.mpr (by simpa [List.all_eq_true] using h)
  rw [h1]
  rfl

/-- `Number()` of a whitespace-only (or empty) string is `0`. -/
theorem jsNumberStr_all_space {t : String} (h : t.toList.all isSpaceChar = true) :
    jsNumberStr t = JSNum.fin 0 := by
  have h0 : trimChars t.data = [] := trimChars_all_space h
  rw [jsNumberStr]
  simp [h0]

/-- Claim C10 (confirmed): a token that is empty or whitespace-only is
accepted by the numeric predicate (`Number("")` is `0`), and `factor`
evaluates it in the numeric branch as the literal `0`, advancing the cursor
and touching no error state — for every configuration, so such tokens are
never classified as cell references and never reach the invalid-formula
fallback branch. -/
theorem claim10_whitespaceToken (cfg : Config) (f : List String) (fuel : Nat)
    (s : EvalState) (t : String)
    (htok : tokenAt f s.idx = some t) (hws : t.toList.all isSpaceChar = true) :
    isNumber (some t) = true ∧
    factor cfg f (fuel + 1) s = some (JSNum.fin 0, { s with idx := s.idx + 1 }) := by
  have hjs : jsNumberStr t = JSNum.fin 0 := jsNumberStr_all_space hws
  have hnum : isNumber (some t) = true := by
    rw [isNumber]
    rw [if_neg (by rw [jsNumber, hjs]; simp)]
  refine ⟨hnum, ?_⟩
  rw [factor, htok, if_pos hnum]
  rw [jsNumber, hjs]

/-- Witness for C10: the single-space token. -/
theorem claim10_witness :
    isNumber (some " ") = true ∧
    factor cfg0 [" "] 1 st0 = some (JSNum.fin 0, { st0 with idx := 1 }) :=
  claim10_whitespaceToken cfg0 [" "] 0 st0 " " (by decide) (by decide)

/-- Claim C6 (confirmed): `getCellValue` implements exactly the three lookup
rules — `(0, error)` when the cell's error is non-empty and not the
empty-formula sentinel, `(0, invalidCell)` when its stored formula is empty,
`(value, "")` otherwise — the returned value is `0` whenever the returned
error string is non-empty, and on a cell-reference token whose lookup
reports a non-empty error, `factor` latches exactly that string as the
evaluator's error (with the error flag and a NaN `_lastResult`) and yields
the returned value as the factor's value. -/
theorem claim6_cellValue (cfg : Config) (u : Option String) (f : List String)
    (fuel : Nat) (s : EvalState)
    (h1 : isNumber (tokenAt f s.idx) = false)
    (h2 : cfg.isCellReference (tokenAt f s.idx) = true)
    (h3 : (getCellValue cfg (tokenAt f s.idx)).2 ≠ "") :
    ((cfg.getCellByLabel u).error ≠ "" →
       (cfg.getCellByLabel u).error ≠ ErrorMessages.emptyFormula →
       getCellValue cfg u = (JSNum.fin 0, (cfg.getCellByLabel u).error)) ∧
    (((cfg.getCellByLabel u).error = "" ∨
        (cfg.getCellByLabel u).error = ErrorMessages.emptyFormula) →
       (cfg.getCellByLabel u).formula.length = 0 →
       getCellValue cfg u = (JSNum.fin 0, ErrorMessages.invalidCell)) ∧
    (((cfg.getCellByLabel u).error = "" ∨
        (cfg.getCellByLabel u).error = ErrorMessages.emptyFormula) →
       (cfg.getCellByLabel u).formula.length ≠ 0 →
       getCellValue cfg u = ((cfg.getCellByLabel u).value, "")) ∧
    ((getCellValue cfg u).2 ≠ "" → (getCellValue cfg u).1 = JSNum.fin 0) ∧
    factor cfg f (fuel + 1) s =
      some ((getCellValue cfg (tokenAt f s.idx)).1,
        { s with idx := s.idx + 1, errorOccurred := true,
                 errorMessage := (getCellValue cfg (tokenAt f s.idx)).2,
                 lastResult := JSNum.nan }) := by
  refine ⟨?_, ?_, ?_, ?_, ?_⟩
  · intro ha hb
    rw [getCellValue, if_pos ⟨ha, hb⟩]
  · intro ho hf
    rw [getCellValue, if_neg (by tauto), if_pos hf]
  · intro ho hf
    rw [getCellValue, if_neg (by tauto), if_neg hf]
  · rw [getCellValue]
    split
    · intro _; rfl
    · split
      · intro _; rfl
      · intro hne; simp at hne
  · rw [factor, if_neg (by simp [h1]), if_pos h2, if_pos h3]

/-- Claim C5 (confirmed): a parenthesised well-formed expression with the
closing parenthesis missing evaluates to the inner expression's value —
`matchToken` latches `invalidFormula` (and a transient NaN `_lastResult`)
but the recursive value is kept, so `evaluate` returns it (and stores it in
`_result` and `_lastResult`), with the invalid-formula message latched and
the error flag still clear; in particular `["(","3","+","4"]` returns `7`
(witness), not `0`. -/
theorem claim5_missingCloseParen (cfg : Config) (prev : EvalState) (e : AExp)
    (hg : goodE e = true) (href : cfg.isCellReference (some "(") = false) :
    evaluate cfg ("(" :: flattenE e) prev =
      (JSNum.fin (qdenoE e),
       { idx := (flattenE e).length + 1, errorOccurred := false,
         errorMessage := ErrorMessages.invalidFormula,
         result := JSNum.fin (qdenoE e), lastResult := JSNum.fin (qdenoE e) }) := by
  have hlen : ("(" :: flattenE e).length = (flattenE e).length + 1 := by simp
  have h1 : 0 < (8:Nat) ^ ((flattenE e).length + 1) := Nat.pos_pow_of_pos _ (by omega)
  have h2 : (8:Nat) ^ ((flattenE e).length + 1 + 1) = 8 ^ ((flattenE e).length + 1) * 8 :=
    pow_succ 8 _
  have hval : evalFuel ("(" :: flattenE e) = 6 * 8 ^ ((flattenE e).length + 1 + 1) := by
    rw [evalFuel, hlen]
  obtain ⟨m, hm⟩ : ∃ m, evalFuel ("(" :: flattenE e) = m + 1 + 1 + 1 :=
    ⟨evalFuel ("(" :: flattenE e) - 3, by omega⟩
  have hm2 : 5 * 8 ^ ((flattenE e).length + 1) ≤ m := by omega
  have htokNone : tokenAt ("(" :: flattenE e) (1 + (flattenE e).length) = none := by
    rw [tokenAt, List.get?_eq_none]
    simp only [List.length_cons]
    omega
  have hinner : expression cfg ("(" :: flattenE e) m
      ⟨1, false, "", prev.result, prev.lastResult⟩ =
      some (JSNum.fin (qdenoE e),
        ⟨1 + (flattenE e).length, false, "", prev.result, prev.lastResult⟩) := by
    have hres := expression_flatten cfg ("(" :: flattenE e)
      ⟨1, false, "", prev.result, prev.lastResult⟩ e [] m href (by simp) hg
      ⟨⟨by simp, by simp⟩, by simp, by simp⟩ (by simpa using hm2)
    simpa using hres
  have hmt : matchToken ("(" :: flattenE e) ")"
      (⟨1 + (flattenE e).length, false, "", prev.result, prev.lastResult⟩ : EvalState) =
      (false, ⟨1 + (flattenE e).length, false, ErrorMessages.invalidFormula,
               prev.result, JSNum.nan⟩) := by
    rw [matchToken]
    rw [if_neg (by rw [htokNone]; simp)]
  have hfac : factor cfg ("(" :: flattenE e) (m + 1)
      (⟨0, false, "", prev.result, prev.lastResult⟩ : EvalState) =
      some (JSNum.fin (qdenoE e),
        ⟨1 + (flattenE e).length, false, ErrorMessages.invalidFormula,
         prev.result, JSNum.nan⟩) := by
    rw [factor]
    simp [tokenAt, isNumber_lparen, href, hinner, hmt]
  have hterm : term cfg ("(" :: flattenE e) (m + 1 + 1)
      (⟨0, false, "", prev.result, prev.lastResult⟩ : EvalState) =
      some (JSNum.fin (qdenoE e),
        ⟨1 + (flattenE e).length, false, ErrorMessages.invalidFormula,
         prev.result, JSNum.nan⟩) := by
    rw [term]
    simp only [hfac]
    rw [termLoop]
    simp [htokNone]
  have hexp : expression cfg ("(" :: flattenE e) (m + 1 + 1 + 1)
      (⟨0, false, "", prev.result, prev.lastResult⟩ : EvalState) =
      some (JSNum.fin (qdenoE e),
        ⟨1 + (flattenE e).length, false, ErrorMessages.invalidFormula,
         prev.result, JSNum.nan⟩) := by
    rw [expression]
    simp only [hterm]
    rw [exprLoop]
    simp [htokNone]
  rw [evaluate, if_neg (by simp)]
  rw [show initState prev = ⟨0, false, "", prev.result, prev.lastResult⟩ from rfl]
  rw [hm]
  simp only [hexp]
  rw [if_neg (show ¬(1 + (flattenE e).length ≠ ("(" :: flattenE e).length ∧ True) from
    fun hc => hc.1 (by rw [hlen]; omega))]
  rw [Nat.add_comm 1 (flattenE e).length]

/-- Witness for C5: the spec's example `["(","3","+","4"]`, via the AST of
`3 + 4`. -/
theorem claim5_witness :
    evaluate cfg0 ["(", "3", "+", "4"] st0 =
      (JSNum.fin 7,
       { idx := 4, errorOccurred := false, errorMessage := ErrorMessages.invalidFormula,
         result := JSNum.fin 7, lastResult := JSNum.fin 7 }) := by
  have h := claim5_missingCloseParen cfg0 st0 astC (by decide) rfl
  rw [show qdenoE astC = 7 from by decide] at h
  exact h

/-- Witness for C6: the cell `A1` of `cfgErr`, whose latched error `"oops"`
is reproduced by the lookup and then latched by `factor` with value `0`. -/
theorem claim6_witness :
    getCellValue cfgErr (some "A1") = (JSNum.fin 0, "oops") ∧
    factor cfgErr ["A1"] 1 st0 =
      some (JSNum.fin 0,
        { idx := 1, errorOccurred := true, errorMessage := "oops",
          result := JSNum.fin 0, lastResult := JSNum.nan }) := by
  have h := claim6_cellValue cfgErr (some "A1") ["A1"] 0 st0
    (by decide) (by decide) (by decide)
  exact ⟨h.1 (by decide) (by decide), h.2.2.2.2⟩

end FE
